import Mathlib

/-!
Shallow embedding of the signal listener of cqueues (src/signal.c).

A sigset_t is embedded as a Finset of signal numbers.  The kernel
(kqueue) is embedded by two oracles: a function from arm/disarm calls
(kevent with a changelist) to an optional errno, and a list of poll
outcomes (kevent with an eventlist) consumed in order, so that the
EINTR retry loop of sfd_query can be expressed.  The struct signalfd
and the functions sfd_preinit, sfd_init, sfd_destroy, sfd_diff,
sfd_update, sfd_query, lsl_listen, lsl_wait and lsl_timeout are
translated one to one; Lua-level error raising (luaL_error) is
embedded as an optional errno result, with the mutated state kept,
since the C code mutates the userdata in place.
-/

namespace CqueuesSignal

/-- A kernel registration call made by sfd_update: kevent with
EV_ADD or EV_DELETE for EVFILT_SIGNAL on one signal number. -/
inductive KOp where
  | add (signo : ℕ)
  | delete (signo : ℕ)
deriving DecidableEq, Repr

/-- The filter field of a returned kevent: EVFILT_SIGNAL or anything else. -/
inductive KFilter where
  | signal
  | other
deriving DecidableEq, Repr

/-- One outcome of the polling kevent call in sfd_query: one event
(n == 1), no event (n == 0), or failure with an errno (n == -1). -/
inductive PollRes where
  | event (f : KFilter) (ident : ℕ)
  | empty
  | error (e : ℕ)
deriving DecidableEq, Repr

/-- The errno value EINTR. -/
def EINTR : ℕ := 4

/-- struct signalfd: the descriptor and the three signal sets. -/
structure signalfd where
  fd : Int
  desired : Finset ℕ
  polling : Finset ℕ
  pending : Finset ℕ
deriving DecidableEq

/-- The loop body test of sfd_diff:
!!sigismember(a, signo) ^ !!sigismember(b, signo). -/
def sigTest (a b : Finset ℕ) (signo : ℕ) : Bool :=
  (decide (signo ∈ a)).xor (decide (signo ∈ b))

/-- The scanning loop of sfd_diff: starting at signo, with the given
number of iterations left, return the first signal number whose
membership differs between a and b, or 0 when the scan is exhausted. -/
def sfd_scan (a b : Finset ℕ) : ℕ → ℕ → ℕ
  | _, 0 => 0
  | signo, fuel + 1 => if sigTest a b signo then signo else sfd_scan a b (signo + 1) fuel

/-- sfd_diff: scan signal numbers 1..31 (the C loop
for (signo = 1; signo < 32; signo++)) and return the first one whose
membership differs between a and b, or 0 when none does. -/
def sfd_diff (a b : Finset ℕ) : ℕ :=
  sfd_scan a b 1 31

theorem sigTest_eq_false_iff (a b : Finset ℕ) (s : ℕ) :
    sigTest a b s = false ↔ (s ∈ a ↔ s ∈ b) := by
  by_cases ha : s ∈ a <;> by_cases hb : s ∈ b <;> simp [sigTest, ha, hb]

theorem sigTest_eq_true_iff (a b : Finset ℕ) (s : ℕ) :
    sigTest a b s = true ↔ ¬ (s ∈ a ↔ s ∈ b) := by
  rw [← sigTest_eq_false_iff a b s]
  cases sigTest a b s <;> simp

theorem sfd_scan_eq_zero_iff (a b : Finset ℕ) :
    ∀ fuel start, 1 ≤ start →
      (sfd_scan a b start fuel = 0 ↔
        ∀ s, start ≤ s → s < start + fuel → sigTest a b s = false) := by
  intro fuel
  induction fuel with
  | zero =>
      intro start hstart
      simp only [sfd_scan]
      constructor
      · intro _ s hs hlt
        omega
      · intro _
        trivial
  | succ n ih =>
      intro start hstart
      simp only [sfd_scan]
      by_cases h : sigTest a b start = true
      · simp only [h, if_true]
        constructor
        · intro h0
          omega
        · intro hall
          have := hall start le_rfl (by omega)
          rw [h] at this
          exact absurd this (by simp)
      · have hf : sigTest a b start = false := by
          cases hx : sigTest a b start
          · rfl
          · exact absurd hx h
        simp only [hf, Bool.false_eq_true, if_false]
        rw [ih (start + 1) (by omega)]
        constructor
        · intro hall s hs hlt
          rcases Nat.eq_or_lt_of_le hs with rfl | hgt
          · exact hf
          · exact hall s hgt (by omega)
        · intro hall s hs hlt
          exact hall s (by omega) (by omega)

theorem sfd_scan_found (a b : Finset ℕ) :
    ∀ fuel start, 1 ≤ start → sfd_scan a b start fuel ≠ 0 →
      (start ≤ sfd_scan a b start fuel ∧
       sfd_scan a b start fuel < start + fuel ∧
       sigTest a b (sfd_scan a b start fuel) = true ∧
       ∀ t, start ≤ t → t < sfd_scan a b start fuel → sigTest a b t = false) := by
  intro fuel
  induction fuel with
  | zero =>
      intro start hstart hne
      exact absurd rfl hne
  | succ n ih =>
      intro start hstart hne
      by_cases h : sigTest a b start = true
      · have hval : sfd_scan a b start (n + 1) = start := by
          simp [sfd_scan, h]
        rw [hval]
        exact ⟨le_rfl, by omega, h, fun t ht hlt => absurd ht (by omega)⟩
      · have hf : sigTest a b start = false := by
          cases hx : sigTest a b start
          · rfl
          · exact absurd hx h
        have hval : sfd_scan a b start (n + 1) = sfd_scan a b (start + 1) n := by
          simp [sfd_scan, hf]
        rw [hval] at hne ⊢
        obtain ⟨h1, h2, h3, h4⟩ := ih (start + 1) (by omega) hne
        refine ⟨by omega, by omega, h3, ?_⟩
        intro t ht hlt
        rcases Nat.eq_or_lt_of_le ht with rfl | hgt
        · exact hf
        · exact h4 t hgt hlt

theorem sfd_diff_eq_zero_iff (a b : Finset ℕ) :
    sfd_diff a b = 0 ↔ ∀ s, 1 ≤ s → s ≤ 31 → sigTest a b s = false := by
  unfold sfd_diff
  rw [sfd_scan_eq_zero_iff a b 31 1 le_rfl]
  constructor
  · intro h s h1 h31
    exact h s h1 (by omega)
  · intro h s h1 hlt
    exact h s h1 (by omega)

theorem sfd_diff_found (a b : Finset ℕ) (h : sfd_diff a b ≠ 0) :
    1 ≤ sfd_diff a b ∧ sfd_diff a b ≤ 31 ∧
    sigTest a b (sfd_diff a b) = true ∧
    ∀ t, 1 ≤ t → t < sfd_diff a b → sigTest a b t = false := by
  unfold sfd_diff at h ⊢
  obtain ⟨h1, h2, h3, h4⟩ := sfd_scan_found a b 31 1 le_rfl h
  exact ⟨h1, by omega, h3, h4⟩

theorem sfd_diff_self (a : Finset ℕ) : sfd_diff a a = 0 := by
  rw [sfd_diff_eq_zero_iff]
  intro s _ _
  rw [sigTest_eq_false_iff]

/-- The number of signal numbers in 1..31 whose membership differs
between a and b: the termination measure of the sfd_update loop. -/
def diffCard (a b : Finset ℕ) : ℕ :=
  ((Finset.Icc 1 31).filter (fun s => sigTest a b s = true)).card

theorem sfd_diff_mem_filter (d p : Finset ℕ) (h : sfd_diff d p ≠ 0) :
    sfd_diff d p ∈ (Finset.Icc 1 31).filter (fun s => sigTest d p s = true) := by
  obtain ⟨h1, h2, h3, _⟩ := sfd_diff_found d p h
  simp only [Finset.mem_filter, Finset.mem_Icc]
  exact ⟨⟨h1, h2⟩, h3⟩

theorem sigTest_ext (a b b' : Finset ℕ) (x : ℕ) (h : x ∈ b ↔ x ∈ b') :
    sigTest a b x = sigTest a b' x := by
  by_cases hb : x ∈ b
  · have hb' : x ∈ b' := h.mp hb
    simp [sigTest, hb, hb']
  · have hb' : x ∉ b' := fun hc => hb (h.mpr hc)
    simp [sigTest, hb, hb']

theorem diffCard_insert_lt (d p : Finset ℕ) (h : sfd_diff d p ≠ 0)
    (hd : sfd_diff d p ∈ d) :
    diffCard d (insert (sfd_diff d p) p) < diffCard d p := by
  have hkey : (Finset.Icc 1 31).filter (fun s => sigTest d (insert (sfd_diff d p) p) s = true) =
      ((Finset.Icc 1 31).filter (fun s => sigTest d p s = true)).erase (sfd_diff d p) := by
    ext x
    simp only [Finset.mem_filter, Finset.mem_erase]
    by_cases hx : x = sfd_diff d p
    · subst hx
      have hfalse : sigTest d (insert (sfd_diff d p) p) (sfd_diff d p) = false := by
        rw [sigTest_eq_false_iff]
        exact ⟨fun _ => Finset.mem_insert_self _ _, fun _ => hd⟩
      simp [hfalse]
    · have hsame : sigTest d (insert (sfd_diff d p) p) x = sigTest d p x := by
        refine sigTest_ext d _ p x ?_
        rw [Finset.mem_insert]
        constructor
        · rintro (h' | h')
          · exact absurd h' hx
          · exact h'
        · intro h'
          exact Or.inr h'
      rw [hsame]
      constructor
      · rintro ⟨hicc, ht⟩
        exact ⟨hx, hicc, ht⟩
      · rintro ⟨_, hicc, ht⟩
        exact ⟨hicc, ht⟩
  unfold diffCard
  rw [hkey]
  exact Finset.card_erase_lt_of_mem (sfd_diff_mem_filter d p h)

theorem diffCard_erase_lt (d p : Finset ℕ) (h : sfd_diff d p ≠ 0)
    (hd : sfd_diff d p ∉ d) :
    diffCard d (p.erase (sfd_diff d p)) < diffCard d p := by
  have hkey : (Finset.Icc 1 31).filter (fun s => sigTest d (p.erase (sfd_diff d p)) s = true) =
      ((Finset.Icc 1 31).filter (fun s => sigTest d p s = true)).erase (sfd_diff d p) := by
    ext x
    simp only [Finset.mem_filter, Finset.mem_erase]
    by_cases hx : x = sfd_diff d p
    · subst hx
      have hfalse : sigTest d (p.erase (sfd_diff d p)) (sfd_diff d p) = false := by
        rw [sigTest_eq_false_iff]
        constructor
        · intro h'
          exact absurd h' hd
        · intro h'
          exact absurd h' (Finset.not_mem_erase _ _)
      simp [hfalse]
    · have hsame : sigTest d (p.erase (sfd_diff d p)) x = sigTest d p x := by
        refine sigTest_ext d _ p x ?_
        rw [Finset.mem_erase]
        constructor
        · rintro ⟨_, h'⟩
          exact h'
        · intro h'
          exact ⟨hx, h'⟩
      rw [hsame]
      constructor
      · rintro ⟨hicc, ht⟩
        exact ⟨hx, hicc, ht⟩
      · rintro ⟨_, hicc, ht⟩
        exact ⟨hicc, ht⟩
  unfold diffCard
  rw [hkey]
  exact Finset.card_erase_lt_of_mem (sfd_diff_mem_filter d p h)

/-- The while loop of sfd_update, acting on the desired and polling
sets.  The oracle beh gives each kevent registration call's outcome
(none for success, some errno for failure).  Returns the optional
errno surfaced, the final polling set, and the list of kevent
registration calls made (a failed call is still a call made). -/
def sfd_update_go (beh : KOp → Option ℕ) (desired polling : Finset ℕ) :
    Option ℕ × Finset ℕ × List KOp :=
  if h0 : sfd_diff desired polling = 0 then (none, polling, [])
  else if hd : sfd_diff desired polling ∈ desired then
    match beh (KOp.add (sfd_diff desired polling)) with
    | some e => (some e, polling, [KOp.add (sfd_diff desired polling)])
    | none =>
        let r := sfd_update_go beh desired (insert (sfd_diff desired polling) polling)
        (r.1, r.2.1, KOp.add (sfd_diff desired polling) :: r.2.2)
  else
    match beh (KOp.delete (sfd_diff desired polling)) with
    | some e => (some e, polling, [KOp.delete (sfd_diff desired polling)])
    | none =>
        let r := sfd_update_go beh desired (polling.erase (sfd_diff desired polling))
        (r.1, r.2.1, KOp.delete (sfd_diff desired polling) :: r.2.2)
termination_by diffCard desired polling
decreasing_by
  · exact diffCard_insert_lt desired polling h0 hd
  · exact diffCard_erase_lt desired polling h0 hd

theorem sfd_update_go_stop (beh : KOp → Option ℕ) (d p : Finset ℕ)
    (h : sfd_diff d p = 0) :
    sfd_update_go beh d p = (none, p, []) := by
  unfold sfd_update_go
  simp [h]

theorem sfd_update_go_add_fail (beh : KOp → Option ℕ) (d p : Finset ℕ) (e : ℕ)
    (h0 : sfd_diff d p ≠ 0) (hd : sfd_diff d p ∈ d)
    (hb : beh (KOp.add (sfd_diff d p)) = some e) :
    sfd_update_go beh d p = (some e, p, [KOp.add (sfd_diff d p)]) := by
  unfold sfd_update_go
  simp [h0, hd, hb]

theorem sfd_update_go_add_ok (beh : KOp → Option ℕ) (d p : Finset ℕ)
    (h0 : sfd_diff d p ≠ 0) (hd : sfd_diff d p ∈ d)
    (hb : beh (KOp.add (sfd_diff d p)) = none) :
    sfd_update_go beh d p =
      ((sfd_update_go beh d (insert (sfd_diff d p) p)).1,
       (sfd_update_go beh d (insert (sfd_diff d p) p)).2.1,
       KOp.add (sfd_diff d p) :: (sfd_update_go beh d (insert (sfd_diff d p) p)).2.2) := by
  conv_lhs => unfold sfd_update_go
  simp [h0, hd, hb]

theorem sfd_update_go_del_fail (beh : KOp → Option ℕ) (d p : Finset ℕ) (e : ℕ)
    (h0 : sfd_diff d p ≠ 0) (hd : sfd_diff d p ∉ d)
    (hb : beh (KOp.delete (sfd_diff d p)) = some e) :
    sfd_update_go beh d p = (some e, p, [KOp.delete (sfd_diff d p)]) := by
  unfold sfd_update_go
  simp [h0, hd, hb]

theorem sfd_update_go_del_ok (beh : KOp → Option ℕ) (d p : Finset ℕ)
    (h0 : sfd_diff d p ≠ 0) (hd : sfd_diff d p ∉ d)
    (hb : beh (KOp.delete (sfd_diff d p)) = none) :
    sfd_update_go beh d p =
      ((sfd_update_go beh d (p.erase (sfd_diff d p))).1,
       (sfd_update_go beh d (p.erase (sfd_diff d p))).2.1,
       KOp.delete (sfd_diff d p) :: (sfd_update_go beh d (p.erase (sfd_diff d p))).2.2) := by
  conv_lhs => unfold sfd_update_go
  simp [h0, hd, hb]

theorem diffCard_eq_zero_iff (d p : Finset ℕ) :
    diffCard d p = 0 ↔ sfd_diff d p = 0 := by
  unfold diffCard
  rw [Finset.card_eq_zero, Finset.filter_eq_empty_iff, sfd_diff_eq_zero_iff]
  constructor
  · intro h s h1 h31
    have := h (Finset.mem_Icc.mpr ⟨h1, h31⟩)
    cases hx : sigTest d p s
    · rfl
    · exact absurd hx this
  · intro h x hx
    rw [Finset.mem_Icc] at hx
    rw [h x hx.1 hx.2]
    simp

/-- The three facts about the reconciliation loop needed by the claims:
a successful run ends with no remaining difference; the final polling
set only contains members of the initial one or desired signals in
1..31; and when every kernel call succeeds the loop itself succeeds. -/
theorem sfd_update_go_props (beh : KOp → Option ℕ) (d : Finset ℕ) :
    ∀ n p, diffCard d p ≤ n →
      (((sfd_update_go beh d p).1 = none →
          sfd_diff d (sfd_update_go beh d p).2.1 = 0) ∧
       (∀ s ∈ (sfd_update_go beh d p).2.1,
          s ∈ p ∨ (s ∈ d ∧ s ∈ Finset.Icc 1 31)) ∧
       ((∀ op, beh op = none) → (sfd_update_go beh d p).1 = none)) := by
  intro n
  induction n with
  | zero =>
      intro p hle
      have h0 : sfd_diff d p = 0 := (diffCard_eq_zero_iff d p).mp (Nat.le_zero.mp hle)
      rw [sfd_update_go_stop beh d p h0]
      exact ⟨fun _ => h0, fun s hs => Or.inl hs, fun _ => rfl⟩
  | succ n ih =>
      intro p hle
      by_cases h0 : sfd_diff d p = 0
      · rw [sfd_update_go_stop beh d p h0]
        exact ⟨fun _ => h0, fun s hs => Or.inl hs, fun _ => rfl⟩
      · obtain ⟨hge1, hle31, _, _⟩ := sfd_diff_found d p h0
        by_cases hd : sfd_diff d p ∈ d
        · cases hb : beh (KOp.add (sfd_diff d p)) with
          | some e =>
              rw [sfd_update_go_add_fail beh d p e h0 hd hb]
              refine ⟨fun hcontra => by simp at hcontra, fun s hs => Or.inl hs, ?_⟩
              intro hall
              rw [hall (KOp.add (sfd_diff d p))] at hb
              exact absurd hb (by simp)
          | none =>
              rw [sfd_update_go_add_ok beh d p h0 hd hb]
              have hlt := diffCard_insert_lt d p h0 hd
              have hrec := ih (insert (sfd_diff d p) p) (by omega)
              refine ⟨hrec.1, ?_, hrec.2.2⟩
              intro s hs
              rcases hrec.2.1 s hs with hmem | hgood
              · rw [Finset.mem_insert] at hmem
                rcases hmem with rfl | hmem
                · exact Or.inr ⟨hd, Finset.mem_Icc.mpr ⟨hge1, hle31⟩⟩
                · exact Or.inl hmem
              · exact Or.inr hgood
        · cases hb : beh (KOp.delete (sfd_diff d p)) with
          | some e =>
              rw [sfd_update_go_del_fail beh d p e h0 hd hb]
              refine ⟨fun hcontra => by simp at hcontra, fun s hs => Or.inl hs, ?_⟩
              intro hall
              rw [hall (KOp.delete (sfd_diff d p))] at hb
              exact absurd hb (by simp)
          | none =>
              rw [sfd_update_go_del_ok beh d p h0 hd hb]
              have hlt := diffCard_erase_lt d p h0 hd
              have hrec := ih (p.erase (sfd_diff d p)) (by omega)
              refine ⟨hrec.1, ?_, hrec.2.2⟩
              intro s hs
              rcases hrec.2.1 s hs with hmem | hgood
              · exact Or.inl (Finset.mem_of_mem_erase hmem)
              · exact Or.inr hgood

theorem sfd_update_go_diff_zero (beh : KOp → Option ℕ) (d p : Finset ℕ)
    (h : (sfd_update_go beh d p).1 = none) :
    sfd_diff d (sfd_update_go beh d p).2.1 = 0 :=
  (sfd_update_go_props beh d (diffCard d p) p le_rfl).1 h

theorem sfd_update_go_polling_mem (beh : KOp → Option ℕ) (d p : Finset ℕ) :
    ∀ s ∈ (sfd_update_go beh d p).2.1, s ∈ p ∨ (s ∈ d ∧ s ∈ Finset.Icc 1 31) :=
  (sfd_update_go_props beh d (diffCard d p) p le_rfl).2.1

theorem sfd_update_go_ok (beh : KOp → Option ℕ) (d p : Finset ℕ)
    (hbeh : ∀ op, beh op = none) :
    (sfd_update_go beh d p).1 = none :=
  (sfd_update_go_props beh d (diffCard d p) p le_rfl).2.2 hbeh

/-- When two sets agree on 1..31 and live inside 1..31, they are equal. -/
theorem eq_of_sfd_diff_eq_zero (d p : Finset ℕ) (h : sfd_diff d p = 0)
    (hd : d ⊆ Finset.Icc 1 31) (hp : p ⊆ Finset.Icc 1 31) : p = d := by
  rw [sfd_diff_eq_zero_iff] at h
  ext x
  by_cases hx : x ∈ Finset.Icc 1 31
  · rw [Finset.mem_Icc] at hx
    have := (sigTest_eq_false_iff d p x).mp (h x hx.1 hx.2)
    exact this.symm
  · constructor
    · intro hc
      exact absurd (hp hc) hx
    · intro hc
      exact absurd (hd hc) hx

/-- sfd_preinit: fd = -1, all three sets emptied (sigemptyset). -/
def sfd_preinit : signalfd :=
  { fd := -1, desired := ∅, polling := ∅, pending := ∅ }

/-- sfd_init: kqueue().  The embedding takes the outcome of the
kqueue call as a parameter: a new descriptor, or the errno when the
call returned -1 (in which case S->fd keeps its previous value). -/
def sfd_init (openRes : Except ℕ Int) (S : signalfd) : Option ℕ × signalfd :=
  match openRes with
  | Except.error e => (some e, S)
  | Except.ok fd => (none, { S with fd := fd })

/-- sfd_destroy: close(S->fd) then sfd_preinit(S). -/
def sfd_destroy (S : signalfd) : signalfd :=
  sfd_preinit

/-- sfd_update on the listener state: run the reconciliation loop on
desired vs polling, store the resulting polling set, and surface the
optional errno together with the kevent registration calls made. -/
def sfd_update (beh : KOp → Option ℕ) (S : signalfd) :
    Option ℕ × signalfd × List KOp :=
  let r := sfd_update_go beh S.desired S.polling
  (r.1, { S with polling := r.2.1 }, r.2.2)

/-- sfd_query: one non-blocking polling kevent call, retried while it
fails with EINTR (the goto retry loop), then sfd_update.  The list
holds the successive outcomes of the polling call; the outer none
means the list was exhausted by EINTR outcomes, i.e. the C loop would
still be retrying. -/
def sfd_query (beh : KOp → Option ℕ) (S : signalfd) :
    List PollRes → Option (Option ℕ × signalfd × List KOp)
  | [] => none
  | PollRes.event f ident :: _ =>
      let S' := if f = KFilter.signal then
          { S with pending := insert ident S.pending,
                   polling := S.polling.erase ident }
        else S
      some (sfd_update beh S')
  | PollRes.empty :: _ => some (sfd_update beh S)
  | PollRes.error e :: rest =>
      if e = EINTR then sfd_query beh S rest
      else some (some e, S, [])

/-- lsl_wait: sfd_query, then return (and clear from pending) the
lowest pending signal found by sfd_diff against the empty set, or no
signal when pending is empty.  On a query error the errno is surfaced
(luaL_error) with the state as the query left it. -/
def lsl_wait (beh : KOp → Option ℕ) (S : signalfd) (polls : List PollRes) :
    Option (Option ℕ × signalfd × Option ℕ) :=
  match sfd_query beh S polls with
  | none => none
  | some (some e, S', _) => some (some e, S', none)
  | some (none, S', _) =>
      if sfd_diff S'.pending ∅ = 0 then some (none, S', none)
      else some (none, { S' with pending := S'.pending.erase (sfd_diff S'.pending ∅) },
                 some (sfd_diff S'.pending ∅))

/-- lsl_timeout: 0.0 when sfd_diff(pending, none) finds a pending
signal, nil otherwise. -/
def lsl_timeout (S : signalfd) : Option ℚ :=
  if sfd_diff S.pending ∅ = 0 then none else some 0

/-- The listener state after sfd_preinit and the sigaddset loop over
the arguments of lsl_listen, before sfd_init runs. -/
def listen_start (args : List ℕ) : signalfd :=
  { sfd_preinit with
    desired := args.foldl (fun d a => insert a d) sfd_preinit.desired }

/-- lsl_listen: allocate the userdata, sfd_preinit, sigaddset each
argument into desired, set the metatable, then sfd_init and
sfd_update, surfacing the first errno (luaL_error).  The state is the
userdata's state when the function returns or raises. -/
def lsl_listen (openRes : Except ℕ Int) (beh : KOp → Option ℕ) (args : List ℕ) :
    Option ℕ × signalfd :=
  let S1 := listen_start args
  match sfd_init openRes S1 with
  | (some e, S2) => (some e, S2)
  | (none, S2) =>
      let r := sfd_update beh S2
      (r.1, r.2.1)

/-- Observable events of one lsl_listen call together with the later
garbage collection of its userdata: the kqueue descriptor being
opened, each kevent registration call, the luaL_error raise, the
close(fd) performed by the __gc metamethod (lsl__gc / sfd_destroy)
when Lua collects the unreachable userdata, and a normal return. -/
inductive LEvent where
  | opened (fd : Int)
  | kcall (op : KOp)
  | raised (e : ℕ)
  | gcClosed (fd : Int)
  | returned
deriving DecidableEq, Repr

/-- One lsl_listen call, as the ordered trace of its observable
events plus those of the later collection of its userdata, and the
listener returned (none when luaL_error was raised).  The metatable,
whose __gc closes the descriptor, is installed before sfd_init and
sfd_update run, so a failing run ends with the finalizer's close —
which happens only after luaL_error has already propagated. -/
def lsl_listen_run (openRes : Except ℕ Int) (beh : KOp → Option ℕ)
    (args : List ℕ) : List LEvent × Option signalfd :=
  match openRes with
  | Except.error e =>
      ([LEvent.raised e, LEvent.gcClosed (listen_start args).fd], none)
  | Except.ok fd =>
      match sfd_update beh { listen_start args with fd := fd } with
      | (some e, _, ops) =>
          (LEvent.opened fd :: ops.map LEvent.kcall ++
             [LEvent.raised e, LEvent.gcClosed fd], none)
      | (none, S3, ops) =>
          (LEvent.opened fd :: ops.map LEvent.kcall ++ [LEvent.returned],
           some S3)

/-- Whether, in a trace, some close of the descriptor happens
strictly before the first error raise (true also when nothing is
raised): the "teardown runs before the error propagates" reading. -/
def tornDownBeforeError : List LEvent → Bool
  | [] => true
  | LEvent.raised _ :: _ => false
  | LEvent.gcClosed _ :: _ => true
  | _ :: tr => tornDownBeforeError tr

/-- Listener states reachable through the embedded operations,
including the states left behind by failing calls (the C code mutates
the userdata in place, so those states persist). -/
inductive Reachable : signalfd → Prop where
  | listen (openRes : Except ℕ Int) (beh : KOp → Option ℕ) (args : List ℕ)
      (S : signalfd) :
      (lsl_listen openRes beh args).2 = S → Reachable S
  | update (beh : KOp → Option ℕ) (S S' : signalfd) :
      Reachable S → (sfd_update beh S).2.1 = S' → Reachable S'
  | query (beh : KOp → Option ℕ) (polls : List PollRes) (S S' : signalfd)
      (e : Option ℕ) (ops : List KOp) :
      Reachable S → sfd_query beh S polls = some (e, S', ops) → Reachable S'
  | wait (beh : KOp → Option ℕ) (polls : List PollRes) (S S' : signalfd)
      (e : Option ℕ) (r : Option ℕ) :
      Reachable S → lsl_wait beh S polls = some (e, S', r) → Reachable S'
  | destroy (S : signalfd) : Reachable S → Reachable (sfd_destroy S)

theorem sfd_update_pending (beh : KOp → Option ℕ) (S : signalfd) :
    (sfd_update beh S).2.1.pending = S.pending := rfl

theorem sfd_update_desired (beh : KOp → Option ℕ) (S : signalfd) :
    (sfd_update beh S).2.1.desired = S.desired := rfl

theorem sfd_update_polling_sub (beh : KOp → Option ℕ) (S : signalfd)
    (hS : S.polling ⊆ S.desired) :
    (sfd_update beh S).2.1.polling ⊆ (sfd_update beh S).2.1.desired := by
  intro s hs
  rcases sfd_update_go_polling_mem beh S.desired S.polling s hs with hmem | hgood
  · exact hS hmem
  · exact hgood.1

theorem sfd_update_polling_icc (beh : KOp → Option ℕ) (S : signalfd)
    (hp : S.polling ⊆ Finset.Icc 1 31) :
    (sfd_update beh S).2.1.polling ⊆ Finset.Icc 1 31 := by
  intro s hs
  rcases sfd_update_go_polling_mem beh S.desired S.polling s hs with hmem | hgood
  · exact hp hmem
  · exact hgood.2

theorem sfd_update_success_eq (beh : KOp → Option ℕ) (S : signalfd)
    (h : (sfd_update beh S).1 = none)
    (hd : S.desired ⊆ Finset.Icc 1 31) (hp : S.polling ⊆ Finset.Icc 1 31) :
    (sfd_update beh S).2.1.polling = (sfd_update beh S).2.1.desired := by
  have hdiff : sfd_diff S.desired (sfd_update_go beh S.desired S.polling).2.1 = 0 :=
    sfd_update_go_diff_zero beh S.desired S.polling h
  have hicc : (sfd_update beh S).2.1.polling ⊆ Finset.Icc 1 31 :=
    sfd_update_polling_icc beh S hp
  exact eq_of_sfd_diff_eq_zero S.desired (sfd_update beh S).2.1.polling hdiff hd hicc

/-- The state sfd_query builds from a returned event before re-arming:
pending gains the event's ident and polling loses it, for a signal
filter event; anything else leaves the state alone. -/
def sfd_query_state (S : signalfd) (f : KFilter) (ident : ℕ) : signalfd :=
  if f = KFilter.signal then
    { S with pending := insert ident S.pending,
             polling := S.polling.erase ident }
  else S

theorem sfd_query_cons_event (beh : KOp → Option ℕ) (S : signalfd)
    (f : KFilter) (ident : ℕ) (rest : List PollRes) :
    sfd_query beh S (PollRes.event f ident :: rest) =
      some (sfd_update beh (sfd_query_state S f ident)) := rfl

theorem sfd_query_cons_empty (beh : KOp → Option ℕ) (S : signalfd)
    (rest : List PollRes) :
    sfd_query beh S (PollRes.empty :: rest) = some (sfd_update beh S) := rfl

theorem sfd_query_cons_error (beh : KOp → Option ℕ) (S : signalfd)
    (e : ℕ) (rest : List PollRes) (he : e ≠ EINTR) :
    sfd_query beh S (PollRes.error e :: rest) = some (some e, S, []) := by
  simp only [sfd_query]
  rw [if_neg he]

theorem sfd_query_cons_eintr (beh : KOp → Option ℕ) (S : signalfd)
    (rest : List PollRes) :
    sfd_query beh S (PollRes.error EINTR :: rest) = sfd_query beh S rest := by
  simp [sfd_query]

theorem sfd_query_state_desired (S : signalfd) (f : KFilter) (ident : ℕ) :
    (sfd_query_state S f ident).desired = S.desired := by
  unfold sfd_query_state
  by_cases hf : f = KFilter.signal
  · rw [if_pos hf]
  · rw [if_neg hf]

theorem sfd_query_state_polling_sub (S : signalfd) (f : KFilter) (ident : ℕ) :
    (sfd_query_state S f ident).polling ⊆ S.polling := by
  unfold sfd_query_state
  by_cases hf : f = KFilter.signal
  · rw [if_pos hf]
    exact Finset.erase_subset _ _
  · rw [if_neg hf]

theorem sfd_query_desired (beh : KOp → Option ℕ) (S : signalfd) :
    ∀ polls res, sfd_query beh S polls = some res → res.2.1.desired = S.desired := by
  intro polls
  induction polls with
  | nil =>
      intro res hres
      exact absurd hres (by simp [sfd_query])
  | cons head rest ih =>
      intro res hres
      cases head with
      | event f ident =>
          rw [sfd_query_cons_event] at hres
          have heq := Option.some.inj hres
          rw [← heq, sfd_update_desired, sfd_query_state_desired]
      | empty =>
          rw [sfd_query_cons_empty] at hres
          have heq := Option.some.inj hres
          rw [← heq, sfd_update_desired]
      | error e =>
          by_cases he : e = EINTR
          · subst he
            rw [sfd_query_cons_eintr] at hres
            exact ih res hres
          · rw [sfd_query_cons_error beh S e rest he] at hres
            have heq := Option.some.inj hres
            rw [← heq]

theorem sfd_query_polling_sub (beh : KOp → Option ℕ) (S : signalfd)
    (hS : S.polling ⊆ S.desired) :
    ∀ polls res, sfd_query beh S polls = some res →
      res.2.1.polling ⊆ res.2.1.desired := by
  intro polls
  induction polls with
  | nil =>
      intro res hres
      exact absurd hres (by simp [sfd_query])
  | cons head rest ih =>
      intro res hres
      cases head with
      | event f ident =>
          rw [sfd_query_cons_event] at hres
          have heq := Option.some.inj hres
          rw [← heq]
          apply sfd_update_polling_sub
          rw [sfd_query_state_desired]
          exact fun s hs => hS (sfd_query_state_polling_sub S f ident hs)
      | empty =>
          rw [sfd_query_cons_empty] at hres
          have heq := Option.some.inj hres
          rw [← heq]
          exact sfd_update_polling_sub beh S hS
      | error e =>
          by_cases he : e = EINTR
          · subst he
            rw [sfd_query_cons_eintr] at hres
            exact ih res hres
          · rw [sfd_query_cons_error beh S e rest he] at hres
            have heq := Option.some.inj hres
            rw [← heq]
            exact hS

theorem sfd_query_success_eq (beh : KOp → Option ℕ) (S : signalfd)
    (hd : S.desired ⊆ Finset.Icc 1 31) (hp : S.polling ⊆ Finset.Icc 1 31) :
    ∀ polls S' ops, sfd_query beh S polls = some (none, S', ops) →
      S'.polling = S'.desired := by
  intro polls
  induction polls with
  | nil =>
      intro S' ops hres
      exact absurd hres (by simp [sfd_query])
  | cons head rest ih =>
      intro S' ops hres
      cases head with
      | event f ident =>
          rw [sfd_query_cons_event] at hres
          have heq := Option.some.inj hres
          have h1 : (sfd_update beh (sfd_query_state S f ident)).1 = none := by
            rw [heq]
          have hd2 : (sfd_query_state S f ident).desired ⊆ Finset.Icc 1 31 := by
            rw [sfd_query_state_desired]
            exact hd
          have hp2 : (sfd_query_state S f ident).polling ⊆ Finset.Icc 1 31 :=
            fun s hs => hp (sfd_query_state_polling_sub S f ident hs)
          have hfin := sfd_update_success_eq beh (sfd_query_state S f ident) h1 hd2 hp2
          rw [heq] at hfin
          exact hfin
      | empty =>
          rw [sfd_query_cons_empty] at hres
          have heq := Option.some.inj hres
          have h1 : (sfd_update beh S).1 = none := by rw [heq]
          have hfin := sfd_update_success_eq beh S h1 hd hp
          rw [heq] at hfin
          exact hfin
      | error e =>
          by_cases he : e = EINTR
          · subst he
            rw [sfd_query_cons_eintr] at hres
            exact ih S' ops hres
          · rw [sfd_query_cons_error beh S e rest he] at hres
            have heq := Option.some.inj hres
            exact absurd (congrArg Prod.fst heq) (by simp)

theorem sfd_query_pending (beh : KOp → Option ℕ) (S : signalfd) :
    ∀ polls res, sfd_query beh S polls = some res →
      (res.2.1.pending = S.pending ∨
       ∃ ident, res.2.1.pending = insert ident S.pending) := by
  intro polls
  induction polls with
  | nil =>
      intro res hres
      exact absurd hres (by simp [sfd_query])
  | cons head rest ih =>
      intro res hres
      cases head with
      | event f ident =>
          rw [sfd_query_cons_event] at hres
          have heq := Option.some.inj hres
          rw [← heq, sfd_update_pending]
          unfold sfd_query_state
          by_cases hf : f = KFilter.signal
          · rw [if_pos hf]
            exact Or.inr ⟨ident, rfl⟩
          · rw [if_neg hf]
            exact Or.inl rfl
      | empty =>
          rw [sfd_query_cons_empty] at hres
          have heq := Option.some.inj hres
          rw [← heq, sfd_update_pending]
          exact Or.inl rfl
      | error e =>
          by_cases he : e = EINTR
          · subst he
            rw [sfd_query_cons_eintr] at hres
            exact ih res hres
          · rw [sfd_query_cons_error beh S e rest he] at hres
            have heq := Option.some.inj hres
            rw [← heq]
            exact Or.inl rfl

theorem lsl_wait_of_query_err (beh : KOp → Option ℕ) (S : signalfd)
    (polls : List PollRes) (e : ℕ) (Sq : signalfd) (ops : List KOp)
    (hq : sfd_query beh S polls = some (some e, Sq, ops)) :
    lsl_wait beh S polls = some (some e, Sq, none) := by
  unfold lsl_wait
  rw [hq]

theorem lsl_wait_of_query_none (beh : KOp → Option ℕ) (S : signalfd)
    (polls : List PollRes) (Sq : signalfd) (ops : List KOp)
    (hq : sfd_query beh S polls = some (none, Sq, ops)) :
    lsl_wait beh S polls =
      if sfd_diff Sq.pending ∅ = 0 then some (none, Sq, none)
      else some (none, { Sq with pending := Sq.pending.erase (sfd_diff Sq.pending ∅) },
                 some (sfd_diff Sq.pending ∅)) := by
  unfold lsl_wait
  rw [hq]

theorem lsl_wait_of_query_divergent (beh : KOp → Option ℕ) (S : signalfd)
    (polls : List PollRes) (hq : sfd_query beh S polls = none) :
    lsl_wait beh S polls = none := by
  unfold lsl_wait
  rw [hq]

/-- sfd_diff of a set within 1..31 against the empty set picks out
the least element of the set. -/
theorem sfd_diff_empty_eq_min (p : Finset ℕ) (hp : p ⊆ Finset.Icc 1 31)
    (h : p.Nonempty) : sfd_diff p ∅ = p.min' h := by
  have hm : p.min' h ∈ p := Finset.min'_mem p h
  have hmIcc := hp hm
  rw [Finset.mem_Icc] at hmIcc
  have hne : sfd_diff p ∅ ≠ 0 := by
    intro h0
    rw [sfd_diff_eq_zero_iff] at h0
    have hzero := h0 (p.min' h) hmIcc.1 hmIcc.2
    rw [sigTest_eq_false_iff] at hzero
    exact absurd (hzero.mp hm) (Finset.not_mem_empty _)
  obtain ⟨h1, h2, h3, h4⟩ := sfd_diff_found p ∅ hne
  rw [sigTest_eq_true_iff] at h3
  have hdp : sfd_diff p ∅ ∈ p := by
    by_contra hc
    exact h3 (by simp [hc])
  have hle1 : p.min' h ≤ sfd_diff p ∅ := Finset.min'_le p _ hdp
  have hle2 : sfd_diff p ∅ ≤ p.min' h := by
    by_contra hc
    push_neg at hc
    have hzero := h4 (p.min' h) hmIcc.1 hc
    rw [sigTest_eq_false_iff] at hzero
    exact absurd (hzero.mp hm) (Finset.not_mem_empty _)
  omega

theorem sfd_diff_empty_iff_empty (p : Finset ℕ) (hp : p ⊆ Finset.Icc 1 31) :
    sfd_diff p ∅ = 0 ↔ p = ∅ := by
  constructor
  · intro h0
    exact (eq_of_sfd_diff_eq_zero p ∅ h0 hp (Finset.empty_subset _)).symm
  · intro h0
    rw [h0]
    exact sfd_diff_self ∅

/-- When the initial difference is already zero the reconciliation is
a no-op: no kernel call, no state change, no error. -/
theorem sfd_update_noop (beh : KOp → Option ℕ) (S : signalfd)
    (h : sfd_diff S.desired S.polling = 0) :
    sfd_update beh S = (none, S, []) := by
  unfold sfd_update
  rw [sfd_update_go_stop beh S.desired S.polling h]

theorem foldl_insert_subset (t : Finset ℕ) :
    ∀ (args : List ℕ) (s : Finset ℕ), (∀ a ∈ args, a ∈ t) → s ⊆ t →
      args.foldl (fun d a => insert a d) s ⊆ t := by
  intro args
  induction args with
  | nil =>
      intro s _ hs
      exact hs
  | cons a as ih =>
      intro s hargs hs
      simp only [List.foldl_cons]
      apply ih
      · intro x hx
        exact hargs x (List.mem_cons_of_mem a hx)
      · exact Finset.insert_subset (hargs a (List.mem_cons_self a as)) hs

theorem listen_start_desired_sub (args : List ℕ)
    (hargs : ∀ a ∈ args, a ∈ Finset.Icc 1 31) :
    (listen_start args).desired ⊆ Finset.Icc 1 31 :=
  foldl_insert_subset _ args _ hargs (Finset.empty_subset _)

theorem lsl_listen_polling_sub (openRes : Except ℕ Int) (beh : KOp → Option ℕ)
    (args : List ℕ) :
    (lsl_listen openRes beh args).2.polling ⊆
      (lsl_listen openRes beh args).2.desired := by
  cases openRes with
  | error e =>
      have hshow : (lsl_listen (Except.error e) beh args).2 = listen_start args := rfl
      rw [hshow]
      intro x hx
      simp [listen_start, sfd_preinit] at hx
  | ok fd =>
      show (sfd_update beh { listen_start args with fd := fd }).2.1.polling ⊆
        (sfd_update beh { listen_start args with fd := fd }).2.1.desired
      apply sfd_update_polling_sub
      intro x hx
      simp [listen_start, sfd_preinit] at hx

theorem lsl_wait_polling_sub (beh : KOp → Option ℕ) (S : signalfd)
    (polls : List PollRes) (e : Option ℕ) (S' : signalfd) (r : Option ℕ)
    (hS : S.polling ⊆ S.desired)
    (hw : lsl_wait beh S polls = some (e, S', r)) :
    S'.polling ⊆ S'.desired := by
  cases hq : sfd_query beh S polls with
  | none =>
      rw [lsl_wait_of_query_divergent beh S polls hq] at hw
      exact absurd hw (by simp)
  | some res =>
      obtain ⟨err, Sq, ops⟩ := res
      have hqsub := sfd_query_polling_sub beh S hS polls (err, Sq, ops) hq
      cases err with
      | some e' =>
          rw [lsl_wait_of_query_err beh S polls e' Sq ops hq] at hw
          have h2 := Option.some.inj hw
          simp only [Prod.mk.injEq] at h2
          obtain ⟨-, h2b, -⟩ := h2
          subst h2b
          exact hqsub
      | none =>
          rw [lsl_wait_of_query_none beh S polls Sq ops hq] at hw
          by_cases h0 : sfd_diff Sq.pending ∅ = 0
          · rw [if_pos h0] at hw
            have h2 := Option.some.inj hw
            simp only [Prod.mk.injEq] at h2
            obtain ⟨-, h2b, -⟩ := h2
            subst h2b
            exact hqsub
          · rw [if_neg h0] at hw
            have h2 := Option.some.inj hw
            simp only [Prod.mk.injEq] at h2
            obtain ⟨-, h2b, -⟩ := h2
            subst h2b
            exact hqsub

/-- A concrete successful reconciliation of a one-signal desired set
from an empty polling set, used to instantiate several claims. -/
theorem sfd_update_go_single (beh : KOp → Option ℕ) (s : ℕ)
    (h1 : 1 ≤ s) (h31 : s ≤ 31) (hb : beh (KOp.add s) = none) :
    sfd_update_go beh (insert s ∅) ∅ = (none, insert s ∅, [KOp.add s]) := by
  have hne : sfd_diff (insert s ∅) ∅ ≠ 0 := by
    intro hc
    rw [sfd_diff_eq_zero_iff] at hc
    have hzero := hc s h1 h31
    rw [sigTest_eq_false_iff] at hzero
    exact absurd (hzero.mp (Finset.mem_insert_self s ∅)) (Finset.not_mem_empty s)
  obtain ⟨-, -, h3, -⟩ := sfd_diff_found (insert s ∅) ∅ hne
  rw [sigTest_eq_true_iff] at h3
  have hmem : sfd_diff (insert s ∅) ∅ ∈ (insert s ∅ : Finset ℕ) := by
    by_contra hc
    apply h3
    constructor
    · intro hm
      exact absurd hm hc
    · intro hm
      exact absurd hm (Finset.not_mem_empty _)
  have hmin : sfd_diff (insert s ∅) ∅ = s := by
    rcases Finset.mem_insert.mp hmem with h | h
    · exact h
    · exact absurd h (Finset.not_mem_empty _)
  rw [sfd_update_go_add_ok beh (insert s ∅) ∅ hne hmem (by rw [hmin]; exact hb), hmin]
  rw [sfd_update_go_stop beh (insert s ∅) (insert s ∅) (sfd_diff_self _)]

theorem sfd_update_concrete :
    sfd_update (fun _ => none) ⟨3, insert 1 ∅, ∅, ∅⟩ =
      (none, ⟨3, insert 1 ∅, insert 1 ∅, ∅⟩, [KOp.add 1]) := by
  unfold sfd_update
  rw [show (⟨3, insert 1 ∅, ∅, ∅⟩ : signalfd).desired = insert 1 ∅ from rfl,
      show (⟨3, insert 1 ∅, ∅, ∅⟩ : signalfd).polling = ∅ from rfl,
      sfd_update_go_single (fun _ => none) 1 le_rfl (by omega) rfl]

theorem lsl_listen_ok (fd : Int) (beh : KOp → Option ℕ) (args : List ℕ) :
    lsl_listen (Except.ok fd) beh args =
      ((sfd_update beh { listen_start args with fd := fd }).1,
       (sfd_update beh { listen_start args with fd := fd }).2.1) := rfl

/-- C1: constructing a listener with desired = S (arguments all in the
1..31 domain) succeeds with the polling set driven to equal the
desired set, assuming no backend failure: lsl_listen raises no error
and the returned state has polling = desired. -/
theorem C1_listen_arms_desired (fd : Int) (beh : KOp → Option ℕ) (args : List ℕ)
    (hbeh : ∀ op, beh op = none) (hargs : ∀ a ∈ args, a ∈ Finset.Icc 1 31) :
    (lsl_listen (Except.ok fd) beh args).1 = none ∧
    (lsl_listen (Except.ok fd) beh args).2.polling =
      (lsl_listen (Except.ok fd) beh args).2.desired := by
  rw [lsl_listen_ok]
  have hd : ({ listen_start args with fd := fd } : signalfd).desired ⊆ Finset.Icc 1 31 :=
    listen_start_desired_sub args hargs
  have hp : ({ listen_start args with fd := fd } : signalfd).polling ⊆ Finset.Icc 1 31 := by
    intro x hx
    simp [listen_start, sfd_preinit] at hx
  have herr : (sfd_update beh { listen_start args with fd := fd }).1 = none :=
    sfd_update_go_ok beh _ _ hbeh
  exact ⟨herr, sfd_update_success_eq beh _ herr hd hp⟩

theorem C1_witness :
    ((∀ op, (fun _ : KOp => (none : Option ℕ)) op = none) ∧
     (∀ a ∈ [1, 15], a ∈ Finset.Icc 1 31)) ∧
    ((lsl_listen (Except.ok 3) (fun _ => none) [1, 15]).1 = none ∧
     (lsl_listen (Except.ok 3) (fun _ => none) [1, 15]).2.polling =
       (lsl_listen (Except.ok 3) (fun _ => none) [1, 15]).2.desired) :=
  ⟨⟨fun _ => rfl, by decide⟩,
   C1_listen_arms_desired 3 (fun _ => none) [1, 15] (fun _ => rfl) (by decide)⟩

/-- C3: over the 1..31 signal domain, sfd_diff returns 0 exactly when
the two sets are equal, and otherwise returns a signal whose
membership differs while every lower number has equal membership. -/
theorem C3_first_difference (a b : Finset ℕ)
    (ha : a ⊆ Finset.Icc 1 31) (hb : b ⊆ Finset.Icc 1 31) :
    (sfd_diff a b = 0 ↔ a = b) ∧
    (sfd_diff a b ≠ 0 →
      ¬ (sfd_diff a b ∈ a ↔ sfd_diff a b ∈ b) ∧
      ∀ t, t < sfd_diff a b → (t ∈ a ↔ t ∈ b)) := by
  constructor
  · constructor
    · intro h0
      exact (eq_of_sfd_diff_eq_zero a b h0 ha hb).symm
    · intro h
      subst h
      exact sfd_diff_self a
  · intro hne
    obtain ⟨h1, h2, h3, h4⟩ := sfd_diff_found a b hne
    rw [sigTest_eq_true_iff] at h3
    refine ⟨h3, ?_⟩
    intro t ht
    by_cases ht1 : 1 ≤ t
    · exact (sigTest_eq_false_iff a b t).mp (h4 t ht1 ht)
    · have ht0 : t = 0 := by omega
      subst ht0
      constructor
      · intro hc
        have := ha hc
        rw [Finset.mem_Icc] at this
        omega
      · intro hc
        have := hb hc
        rw [Finset.mem_Icc] at this
        omega

theorem C3_witness :
    ((insert 2 ∅ : Finset ℕ) ⊆ Finset.Icc 1 31 ∧
     (∅ : Finset ℕ) ⊆ Finset.Icc 1 31) ∧
    ((sfd_diff (insert 2 ∅) (∅ : Finset ℕ) = 0 ↔ (insert 2 ∅ : Finset ℕ) = ∅) ∧
     (sfd_diff (insert 2 ∅) (∅ : Finset ℕ) ≠ 0 →
       ¬ (sfd_diff (insert 2 ∅) (∅ : Finset ℕ) ∈ (insert 2 ∅ : Finset ℕ) ↔
            sfd_diff (insert 2 ∅) (∅ : Finset ℕ) ∈ (∅ : Finset ℕ)) ∧
       ∀ t, t < sfd_diff (insert 2 ∅) (∅ : Finset ℕ) →
         (t ∈ (insert 2 ∅ : Finset ℕ) ↔ t ∈ (∅ : Finset ℕ)))) :=
  ⟨⟨by decide, by decide⟩, C3_first_difference (insert 2 ∅) ∅ (by decide) (by decide)⟩

/-- C5: draining a delivery of a signal that is already pending
leaves the pending set unchanged — pending is a set, so a second
delivery before consumption is coalesced, not counted. -/
theorem C5_coalescing (beh : KOp → Option ℕ) (S : signalfd) (s : ℕ)
    (hs : s ∈ S.pending) (res : Option ℕ × signalfd × List KOp)
    (hq : sfd_query beh S [PollRes.event KFilter.signal s] = some res) :
    res.2.1.pending = S.pending := by
  rw [sfd_query_cons_event] at hq
  have heq := Option.some.inj hq
  rw [← heq, sfd_update_pending]
  unfold sfd_query_state
  rw [if_pos rfl]
  show insert s S.pending = S.pending
  exact Finset.insert_eq_self.mpr hs

theorem C5_witness :
    (2 ∈ (⟨3, ∅, ∅, insert 2 ∅⟩ : signalfd).pending ∧
     sfd_query (fun _ => none) ⟨3, ∅, ∅, insert 2 ∅⟩
         [PollRes.event KFilter.signal 2] =
       some (none, (⟨3, ∅, Finset.erase ∅ 2, insert 2 (insert 2 ∅)⟩ : signalfd), [])) ∧
    ((none : Option ℕ), (⟨3, ∅, Finset.erase ∅ 2, insert 2 (insert 2 ∅)⟩ : signalfd),
        ([] : List KOp)).2.1.pending = (⟨3, ∅, ∅, insert 2 ∅⟩ : signalfd).pending := by
  have hstate : sfd_query_state ⟨3, ∅, ∅, insert 2 ∅⟩ KFilter.signal 2 =
      ⟨3, ∅, Finset.erase ∅ 2, insert 2 (insert 2 ∅)⟩ := rfl
  have hupd : sfd_update (fun _ => none)
      ⟨3, ∅, Finset.erase ∅ 2, insert 2 (insert 2 ∅)⟩ =
      (none, ⟨3, ∅, Finset.erase ∅ 2, insert 2 (insert 2 ∅)⟩, []) :=
    sfd_update_noop _ _ (by decide)
  have hq : sfd_query (fun _ => none) ⟨3, ∅, ∅, insert 2 ∅⟩
      [PollRes.event KFilter.signal 2] =
      some (none, (⟨3, ∅, Finset.erase ∅ 2, insert 2 (insert 2 ∅)⟩ : signalfd), []) := by
    rw [sfd_query_cons_event, hstate, hupd]
  exact ⟨⟨by decide, hq⟩,
    C5_coalescing (fun _ => none) ⟨3, ∅, ∅, insert 2 ∅⟩ 2 (by decide) _ hq⟩

/-- C7: reconciliation is idempotent — after a successful sfd_update,
running sfd_update again with desired unchanged performs zero kernel
registration calls and leaves the state unchanged, because sfd_diff
finds no difference immediately. -/
theorem C7_reconcile_idempotent (beh beh2 : KOp → Option ℕ) (S S' : signalfd)
    (ops : List KOp) (h : sfd_update beh S = (none, S', ops)) :
    sfd_update beh2 S' = (none, S', []) := by
  have h1 : (sfd_update beh S).1 = none := by rw [h]
  have hS' : S' = (sfd_update beh S).2.1 := by rw [h]
  have hdes : S'.desired = S.desired := by rw [hS']; rfl
  have hpol : S'.polling = (sfd_update_go beh S.desired S.polling).2.1 := by rw [hS']; rfl
  apply sfd_update_noop
  rw [hdes, hpol]
  exact sfd_update_go_diff_zero beh S.desired S.polling h1

theorem C7_witness :
    sfd_update (fun _ => none) ⟨3, insert 1 ∅, ∅, ∅⟩ =
        (none, ⟨3, insert 1 ∅, insert 1 ∅, ∅⟩, [KOp.add 1]) ∧
    sfd_update (fun _ => none) (⟨3, insert 1 ∅, insert 1 ∅, ∅⟩ : signalfd) =
        (none, ⟨3, insert 1 ∅, insert 1 ∅, ∅⟩, []) :=
  ⟨sfd_update_concrete,
   C7_reconcile_idempotent (fun _ => none) (fun _ => none) ⟨3, insert 1 ∅, ∅, ∅⟩
     ⟨3, insert 1 ∅, insert 1 ∅, ∅⟩ [KOp.add 1] sfd_update_concrete⟩

/-- C9: an interrupted poll (EINTR) is retried transparently — any
run of EINTR outcomes in front of the poll sequence does not change
the result of sfd_query — while any other poll errno is surfaced
as-is, with the state untouched and no kernel registration call. -/
theorem C9_eintr_transparent :
    (∀ (beh : KOp → Option ℕ) (S : signalfd) (k : ℕ) (polls : List PollRes),
        sfd_query beh S (List.replicate k (PollRes.error EINTR) ++ polls) =
          sfd_query beh S polls) ∧
    (∀ (beh : KOp → Option ℕ) (S : signalfd) (e : ℕ) (rest : List PollRes),
        e ≠ EINTR →
        sfd_query beh S (PollRes.error e :: rest) = some (some e, S, [])) := by
  constructor
  · intro beh S k
    induction k with
    | zero =>
        intro polls
        rfl
    | succ n ih =>
        intro polls
        rw [List.replicate_succ, List.cons_append, sfd_query_cons_eintr]
        exact ih polls
  · intro beh S e rest he
    exact sfd_query_cons_error beh S e rest he

theorem C9_witness :
    (sfd_query (fun _ => none) sfd_preinit
        (List.replicate 2 (PollRes.error EINTR) ++ [PollRes.empty]) =
      sfd_query (fun _ => none) sfd_preinit [PollRes.empty]) ∧
    ((5 : ℕ) ≠ EINTR ∧
     sfd_query (fun _ => none) sfd_preinit [PollRes.error 5] =
       some (some 5, sfd_preinit, [])) :=
  ⟨C9_eintr_transparent.1 (fun _ => none) sfd_preinit 2 [PollRes.empty],
   ⟨by decide, C9_eintr_transparent.2 (fun _ => none) sfd_preinit 5 [] (by decide)⟩⟩

theorem lsl_listen_run_open_fail (e : ℕ) (beh : KOp → Option ℕ) (args : List ℕ) :
    lsl_listen_run (Except.error e) beh args =
      ([LEvent.raised e, LEvent.gcClosed (listen_start args).fd], none) := rfl

theorem lsl_listen_run_update_fail (fd : Int) (beh : KOp → Option ℕ)
    (args : List ℕ) (e : ℕ) (S3 : signalfd) (ops : List KOp)
    (h : sfd_update beh { listen_start args with fd := fd } = (some e, S3, ops)) :
    lsl_listen_run (Except.ok fd) beh args =
      (LEvent.opened fd :: ops.map LEvent.kcall ++
         [LEvent.raised e, LEvent.gcClosed fd], none) := by
  simp only [lsl_listen_run]
  rw [h]

theorem lsl_listen_run_ok (fd : Int) (beh : KOp → Option ℕ) (args : List ℕ)
    (S3 : signalfd) (ops : List KOp)
    (h : sfd_update beh { listen_start args with fd := fd } = (none, S3, ops)) :
    lsl_listen_run (Except.ok fd) beh args =
      (LEvent.opened fd :: ops.map LEvent.kcall ++ [LEvent.returned],
       some S3) := by
  simp only [lsl_listen_run]
  rw [h]

theorem listen_run_concrete :
    lsl_listen_run (Except.ok 3) (fun _ => some 13) [1] =
      ([LEvent.opened 3, LEvent.kcall (KOp.add 1), LEvent.raised 13,
        LEvent.gcClosed 3], none) := by
  have hdiff : sfd_diff (insert 1 (∅ : Finset ℕ)) ∅ = 1 := by decide
  have hgo := sfd_update_go_add_fail (fun _ => some 13) (insert 1 ∅) ∅ 13
    (by rw [hdiff]; omega)
    (by rw [hdiff]; exact Finset.mem_insert_self 1 ∅)
    (by rw [hdiff])
  rw [hdiff] at hgo
  have hstart : ({ listen_start [1] with fd := 3 } : signalfd) =
      ⟨3, insert 1 ∅, ∅, ∅⟩ := rfl
  have hupd : sfd_update (fun _ => some 13) ⟨3, insert 1 ∅, ∅, ∅⟩ =
      (some 13, ⟨3, insert 1 ∅, ∅, ∅⟩, [KOp.add 1]) := by
    unfold sfd_update
    rw [show (⟨3, insert 1 ∅, ∅, ∅⟩ : signalfd).desired = insert 1 ∅ from rfl,
        show (⟨3, insert 1 ∅, ∅, ∅⟩ : signalfd).polling = ∅ from rfl, hgo]
  rw [lsl_listen_run_update_fail 3 (fun _ => some 13) [1] 13
        ⟨3, insert 1 ∅, ∅, ∅⟩ [KOp.add 1] (by rw [hstart, hupd])]
  rfl

/-- C2, counterexample: a constructor run in which the backend opens
but the first arming call fails.  The run ends with no listener, and
no close of the descriptor happens before the error is raised — the
close is performed later, by the garbage-collection finalizer. -/
theorem C2_counterexample :
    (lsl_listen_run (Except.ok 3) (fun _ => some 13) [1]).2 = none ∧
    tornDownBeforeError (lsl_listen_run (Except.ok 3) (fun _ => some 13) [1]).1 =
      false := by
  rw [listen_run_concrete]
  exact ⟨rfl, rfl⟩

/-- C2 (amended): when construction fails, no listener is returned
and an error is raised, and every descriptor opened during the run is
eventually closed — but by the later garbage-collection finalizer
(the metatable carrying __gc is installed before the fallible steps),
not before the error propagates. -/
theorem C2_teardown_on_failure (openRes : Except ℕ Int) (beh : KOp → Option ℕ)
    (args : List ℕ) (fd : Int)
    (hfail : (lsl_listen_run openRes beh args).2 = none)
    (hopen : LEvent.opened fd ∈ (lsl_listen_run openRes beh args).1) :
    LEvent.gcClosed fd ∈ (lsl_listen_run openRes beh args).1 ∧
    ∃ e, LEvent.raised e ∈ (lsl_listen_run openRes beh args).1 := by
  cases openRes with
  | error e =>
      rw [lsl_listen_run_open_fail] at hopen
      simp at hopen
  | ok fd0 =>
      rcases hupd : sfd_update beh { listen_start args with fd := fd0 } with
        ⟨_ | e, S3, ops⟩
      · rw [lsl_listen_run_ok fd0 beh args S3 ops hupd] at hfail
        simp at hfail
      · rw [lsl_listen_run_update_fail fd0 beh args e S3 ops hupd] at hopen ⊢
        have hfd : fd = fd0 := by
          simp at hopen
          exact hopen
        subst hfd
        constructor
        · simp
        · exact ⟨e, by simp⟩

theorem C2_witness :
    ((lsl_listen_run (Except.ok 3) (fun _ => some 13) [1]).2 = none ∧
     LEvent.opened 3 ∈ (lsl_listen_run (Except.ok 3) (fun _ => some 13) [1]).1) ∧
    (LEvent.gcClosed 3 ∈ (lsl_listen_run (Except.ok 3) (fun _ => some 13) [1]).1 ∧
     ∃ e, LEvent.raised e ∈ (lsl_listen_run (Except.ok 3) (fun _ => some 13) [1]).1) :=
  ⟨⟨by rw [listen_run_concrete], by rw [listen_run_concrete]; simp⟩,
   C2_teardown_on_failure (Except.ok 3) (fun _ => some 13) [1] 3
     (by rw [listen_run_concrete]) (by rw [listen_run_concrete]; simp)⟩

/-- C4: after a wait with no new delivery (poll returns no event) and
no backend failure, the lowest-numbered pending signal is returned
and removed; when pending is empty, no signal is returned.  Repeated
application therefore yields the pending signals in increasing order
until none remain. -/
theorem C4_wait_drains_lowest (beh : KOp → Option ℕ) (S : signalfd)
    (hbeh : ∀ op, beh op = none) (hpend : S.pending ⊆ Finset.Icc 1 31)
    (res : Option ℕ × signalfd × Option ℕ)
    (hw : lsl_wait beh S [PollRes.empty] = some res) :
    res.1 = none ∧
    (∀ h : S.pending.Nonempty,
       res.2.2 = some (S.pending.min' h) ∧
       res.2.1.pending = S.pending.erase (S.pending.min' h) ∧
       res.2.1.pending ⊆ Finset.Icc 1 31) ∧
    (S.pending = ∅ → res.2.2 = none ∧ res.2.1.pending = ∅) := by
  have herr : (sfd_update beh S).1 = none :=
    sfd_update_go_ok beh S.desired S.polling hbeh
  have hq : sfd_query beh S [PollRes.empty] =
      some (none, (sfd_update beh S).2.1, (sfd_update beh S).2.2) := by
    rw [sfd_query_cons_empty, ← herr]
  have hpq : (sfd_update beh S).2.1.pending = S.pending := sfd_update_pending beh S
  rw [lsl_wait_of_query_none beh S [PollRes.empty] _ _ hq] at hw
  by_cases h0 : sfd_diff (sfd_update beh S).2.1.pending ∅ = 0
  · rw [if_pos h0] at hw
    have hres := Option.some.inj hw
    rw [hpq] at h0
    have hempty : S.pending = ∅ := (sfd_diff_empty_iff_empty S.pending hpend).mp h0
    refine ⟨by rw [← hres], ?_, ?_⟩
    · intro h
      exact absurd hempty (Finset.nonempty_iff_ne_empty.mp h)
    · intro _
      rw [← hres]
      exact ⟨rfl, hpq.trans hempty⟩
  · rw [if_neg h0] at hw
    have hres := Option.some.inj hw
    rw [hpq] at h0
    have hne : S.pending.Nonempty := by
      rw [Finset.nonempty_iff_ne_empty]
      intro hc
      exact h0 ((sfd_diff_empty_iff_empty S.pending hpend).mpr hc)
    have hm := sfd_diff_empty_eq_min S.pending hpend hne
    refine ⟨by rw [← hres], ?_, ?_⟩
    · intro h
      refine ⟨?_, ?_, ?_⟩
      · rw [← hres]
        show some (sfd_diff (sfd_update beh S).2.1.pending ∅) = some (S.pending.min' h)
        rw [hpq, hm]
      · rw [← hres]
        show (sfd_update beh S).2.1.pending.erase
            (sfd_diff (sfd_update beh S).2.1.pending ∅) =
          S.pending.erase (S.pending.min' h)
        rw [hpq, hm]
      · rw [← hres]
        show (sfd_update beh S).2.1.pending.erase
            (sfd_diff (sfd_update beh S).2.1.pending ∅) ⊆ Finset.Icc 1 31
        rw [hpq]
        intro x hx
        exact hpend (Finset.mem_of_mem_erase hx)
    · intro hc
      exact absurd hc (Finset.nonempty_iff_ne_empty.mp hne)

theorem C4_witness :
    ((∀ op, (fun _ : KOp => (none : Option ℕ)) op = none) ∧
     (⟨3, ∅, ∅, insert 2 (insert 5 ∅)⟩ : signalfd).pending ⊆ Finset.Icc 1 31 ∧
     lsl_wait (fun _ => none) ⟨3, ∅, ∅, insert 2 (insert 5 ∅)⟩ [PollRes.empty] =
       some (none,
         (⟨3, ∅, ∅, Finset.erase (insert 2 (insert 5 ∅)) 2⟩ : signalfd), some 2)) ∧
    (((none : Option ℕ),
        (⟨3, ∅, ∅, Finset.erase (insert 2 (insert 5 ∅)) 2⟩ : signalfd),
        (some 2 : Option ℕ)).1 = none ∧
     (∀ h : (⟨3, ∅, ∅, insert 2 (insert 5 ∅)⟩ : signalfd).pending.Nonempty,
        ((none : Option ℕ),
          (⟨3, ∅, ∅, Finset.erase (insert 2 (insert 5 ∅)) 2⟩ : signalfd),
          (some 2 : Option ℕ)).2.2 =
            some ((⟨3, ∅, ∅, insert 2 (insert 5 ∅)⟩ : signalfd).pending.min' h) ∧
        ((none : Option ℕ),
          (⟨3, ∅, ∅, Finset.erase (insert 2 (insert 5 ∅)) 2⟩ : signalfd),
          (some 2 : Option ℕ)).2.1.pending =
            (⟨3, ∅, ∅, insert 2 (insert 5 ∅)⟩ : signalfd).pending.erase
              ((⟨3, ∅, ∅, insert 2 (insert 5 ∅)⟩ : signalfd).pending.min' h) ∧
        ((none : Option ℕ),
          (⟨3, ∅, ∅, Finset.erase (insert 2 (insert 5 ∅)) 2⟩ : signalfd),
          (some 2 : Option ℕ)).2.1.pending ⊆ Finset.Icc 1 31) ∧
     ((⟨3, ∅, ∅, insert 2 (insert 5 ∅)⟩ : signalfd).pending = ∅ →
        ((none : Option ℕ),
          (⟨3, ∅, ∅, Finset.erase (insert 2 (insert 5 ∅)) 2⟩ : signalfd),
          (some 2 : Option ℕ)).2.2 = none ∧
        ((none : Option ℕ),
          (⟨3, ∅, ∅, Finset.erase (insert 2 (insert 5 ∅)) 2⟩ : signalfd),
          (some 2 : Option ℕ)).2.1.pending = ∅)) := by
  have hq : sfd_query (fun _ => none) ⟨3, ∅, ∅, insert 2 (insert 5 ∅)⟩
      [PollRes.empty] = some (none, ⟨3, ∅, ∅, insert 2 (insert 5 ∅)⟩, []) := by
    rw [sfd_query_cons_empty, sfd_update_noop _ _ (by decide)]
  have hw : lsl_wait (fun _ => none) ⟨3, ∅, ∅, insert 2 (insert 5 ∅)⟩
      [PollRes.empty] =
      some (none,
        (⟨3, ∅, ∅, Finset.erase (insert 2 (insert 5 ∅)) 2⟩ : signalfd), some 2) := by
    rw [lsl_wait_of_query_none _ _ _ _ _ hq]
    rw [show sfd_diff (⟨3, ∅, ∅, insert 2 (insert 5 ∅)⟩ : signalfd).pending ∅ = 2
          from by decide]
    rw [if_neg (by omega)]
  exact ⟨⟨fun _ => rfl, by decide, hw⟩,
    C4_wait_drains_lowest (fun _ => none) ⟨3, ∅, ∅, insert 2 (insert 5 ∅)⟩
      (fun _ => rfl) (by decide) _ hw⟩

/-- C6: in every reachable listener state the polling (armed) set is
a subset of the desired set, and every successful sfd_update run
(over the 1..31 domain) establishes polling = desired. -/
theorem C6_armed_subset_desired :
    (∀ S : signalfd, Reachable S → S.polling ⊆ S.desired) ∧
    (∀ (beh : KOp → Option ℕ) (S : signalfd),
        (sfd_update beh S).1 = none →
        S.desired ⊆ Finset.Icc 1 31 → S.polling ⊆ Finset.Icc 1 31 →
        (sfd_update beh S).2.1.polling = (sfd_update beh S).2.1.desired) := by
  constructor
  · intro S h
    induction h with
    | listen openRes beh args S heq =>
        subst heq
        exact lsl_listen_polling_sub openRes beh args
    | update beh S S' hR heq ih =>
        subst heq
        exact sfd_update_polling_sub beh S ih
    | query beh polls S S' e ops hR heq ih =>
        exact sfd_query_polling_sub beh S ih polls (e, S', ops) heq
    | wait beh polls S S' e r hR heq ih =>
        exact lsl_wait_polling_sub beh S polls e S' r ih heq
    | destroy S hR ih =>
        exact Finset.Subset.refl _
  · intro beh S h hd hp
    exact sfd_update_success_eq beh S h hd hp

theorem C6_witness :
    ((lsl_listen (Except.ok 3) (fun _ => none) [1]).2.polling ⊆
       (lsl_listen (Except.ok 3) (fun _ => none) [1]).2.desired) ∧
    ((sfd_update (fun _ => none) ⟨3, insert 1 ∅, ∅, ∅⟩).1 = none ∧
     (⟨3, insert 1 ∅, ∅, ∅⟩ : signalfd).desired ⊆ Finset.Icc 1 31 ∧
     (⟨3, insert 1 ∅, ∅, ∅⟩ : signalfd).polling ⊆ Finset.Icc 1 31 ∧
     (sfd_update (fun _ => none) ⟨3, insert 1 ∅, ∅, ∅⟩).2.1.polling =
       (sfd_update (fun _ => none) ⟨3, insert 1 ∅, ∅, ∅⟩).2.1.desired) :=
  ⟨C6_armed_subset_desired.1 _
     (Reachable.listen (Except.ok 3) (fun _ => none) [1] _ rfl),
   ⟨by rw [sfd_update_concrete], by decide, by decide,
    C6_armed_subset_desired.2 (fun _ => none) ⟨3, insert 1 ∅, ∅, ∅⟩
      (by rw [sfd_update_concrete]) (by decide) (by decide)⟩⟩

/-- C8: immediately after any successful drain (sfd_query), the
timeout is the zero duration exactly when pending is non-empty, and
nil exactly when pending is empty. -/
theorem C8_timeout_pending (beh : KOp → Option ℕ) (S : signalfd)
    (polls : List PollRes) (res : Option ℕ × signalfd × List KOp)
    (hq : sfd_query beh S polls = some res)
    (hpend : res.2.1.pending ⊆ Finset.Icc 1 31) :
    (lsl_timeout res.2.1 = some 0 ↔ res.2.1.pending ≠ ∅) ∧
    (lsl_timeout res.2.1 = none ↔ res.2.1.pending = ∅) := by
  unfold lsl_timeout
  by_cases h0 : sfd_diff res.2.1.pending ∅ = 0
  · rw [if_pos h0]
    have hemp : res.2.1.pending = ∅ := (sfd_diff_empty_iff_empty _ hpend).mp h0
    constructor
    · constructor
      · intro hc
        exact absurd hc (by simp)
      · intro hc
        exact absurd hemp hc
    · simp [hemp]
  · rw [if_neg h0]
    have hne : res.2.1.pending ≠ ∅ := by
      intro hc
      exact h0 ((sfd_diff_empty_iff_empty _ hpend).mpr hc)
    constructor
    · simp [hne]
    · constructor
      · intro hc
        exact absurd hc (by simp)
      · intro hc
        exact absurd hc hne

theorem C8_witness :
    (sfd_query (fun _ => none) ⟨3, ∅, ∅, insert 2 ∅⟩ [PollRes.empty] =
       some (none, (⟨3, ∅, ∅, insert 2 ∅⟩ : signalfd), []) ∧
     ((none : Option ℕ), (⟨3, ∅, ∅, insert 2 ∅⟩ : signalfd),
        ([] : List KOp)).2.1.pending ⊆ Finset.Icc 1 31) ∧
    ((lsl_timeout ((none : Option ℕ), (⟨3, ∅, ∅, insert 2 ∅⟩ : signalfd),
          ([] : List KOp)).2.1 = some 0 ↔
        ((none : Option ℕ), (⟨3, ∅, ∅, insert 2 ∅⟩ : signalfd),
          ([] : List KOp)).2.1.pending ≠ ∅) ∧
     (lsl_timeout ((none : Option ℕ), (⟨3, ∅, ∅, insert 2 ∅⟩ : signalfd),
          ([] : List KOp)).2.1 = none ↔
        ((none : Option ℕ), (⟨3, ∅, ∅, insert 2 ∅⟩ : signalfd),
          ([] : List KOp)).2.1.pending = ∅)) := by
  have hq : sfd_query (fun _ => none) ⟨3, ∅, ∅, insert 2 ∅⟩ [PollRes.empty] =
      some (none, (⟨3, ∅, ∅, insert 2 ∅⟩ : signalfd), []) := by
    rw [sfd_query_cons_empty, sfd_update_noop _ _ (by decide)]
  exact ⟨⟨hq, by decide⟩,
    C8_timeout_pending (fun _ => none) ⟨3, ∅, ∅, insert 2 ∅⟩ [PollRes.empty]
      _ hq (by decide)⟩

/-- C10: every successful drain re-runs the reconciliation
unconditionally, so (over the 1..31 domain) it ends with
polling = desired even when the poll produced no event, repairing any
pre-existing divergence. -/
theorem C10_drain_reconciles (beh : KOp → Option ℕ) (S : signalfd)
    (polls : List PollRes) (S' : signalfd) (ops : List KOp)
    (hq : sfd_query beh S polls = some (none, S', ops))
    (hd : S.desired ⊆ Finset.Icc 1 31) (hp : S.polling ⊆ Finset.Icc 1 31) :
    S'.polling = S'.desired :=
  sfd_query_success_eq beh S hd hp polls S' ops hq

theorem C10_witness :
    (sfd_query (fun _ => none) ⟨3, insert 1 ∅, ∅, ∅⟩ [PollRes.empty] =
       some (none, (⟨3, insert 1 ∅, insert 1 ∅, ∅⟩ : signalfd), [KOp.add 1]) ∧
     (⟨3, insert 1 ∅, ∅, ∅⟩ : signalfd).desired ⊆ Finset.Icc 1 31 ∧
     (⟨3, insert 1 ∅, ∅, ∅⟩ : signalfd).polling ⊆ Finset.Icc 1 31) ∧
    (⟨3, insert 1 ∅, insert 1 ∅, ∅⟩ : signalfd).polling =
      (⟨3, insert 1 ∅, insert 1 ∅, ∅⟩ : signalfd).desired := by
  have hq : sfd_query (fun _ => none) ⟨3, insert 1 ∅, ∅, ∅⟩ [PollRes.empty] =
      some (none, (⟨3, insert 1 ∅, insert 1 ∅, ∅⟩ : signalfd), [KOp.add 1]) := by
    rw [sfd_query_cons_empty, sfd_update_concrete]
  exact ⟨⟨hq, by decide, by decide⟩,
    C10_drain_reconciles (fun _ => none) ⟨3, insert 1 ∅, ∅, ∅⟩ [PollRes.empty]
      _ _ hq (by decide) (by decide)⟩

end CqueuesSignal
